import Mathlib

/-!
Verification of the animated-icon conversion script
(`generate_animated_icons.py`).

The script's verifiable core is pure: extraction of animation timing
declarations from SVG text, computation of the repeating cycle length as an
LCM of the extracted durations, derivation of the sampling plan
(start offset, frame count, sample times), output-file naming, and the
per-document error-handling loop.  Each definition below is a shallow
embedding of the corresponding Python function, translated from the source.

Modelling notes (stated once, referenced in the doc comments below):
* Python integers are unbounded, so they are embedded as `Nat` (all numeric
  values in this program are nonnegative: they arise from regex-matched
  decimal literals).
* Python `float` arithmetic appears in three places.  `math.ceil((max_delay
  + 1) / cycle_ms)` and `int(cycle_ms / FRAME_MS)` are modelled with exact
  Nat ceiling/floor division: over the program's reachable domain these
  float quotients agree with the exact ones (cycle lengths are capped at
  10000 ms; a divergence would need delays beyond about 9·10^15 ms).
  `int(float(text) * (1000 if unit == 's' else 1))` is modelled in exact
  IEEE-754 binary64 semantics (`roundFrac` below): correctly rounded
  decimal-to-double conversion, a rounded double multiplication, then
  truncation.  The only unmodelled float behaviour is the overflow to
  infinity for decimal literals of 309+ digits, on which the Python
  conversion raises `OverflowError` (caught by the per-document handler).
* The regex character classes `\d` and `\s` are modelled by their ASCII
  subsets (the icons' SVG sources are ASCII); exotic Unicode digits and
  whitespace are not modelled.
-/

/-- Source constant `FPS = 20`. -/
def FPS : Nat := 20

/-- Source constant `FRAME_MS = 1000 / FPS` (the Python value is the float
`50.0`; it is integer-valued, so it is embedded as the natural number 50). -/
def FRAME_MS : Nat := 1000 / FPS

/-- Source function `gcd(a, b)`: the loop `while b: a, b = b, a % b`.
Embedded recursively; named `pygcd` because `gcd` would collide with the
root-namespace `GCDMonoid.gcd`.  Every call in the program has nonnegative
arguments, so `Nat` and the Python modulo agree. -/
def pygcd (a b : Nat) : Nat :=
  if b = 0 then a else pygcd b (a % b)
termination_by b
decreasing_by exact Nat.mod_lt _ (Nat.pos_of_ne_zero (by assumption))

/-- Source function `lcm(a, b) = abs(a * b) // gcd(a, b)`; `abs` is the
identity on naturals. -/
def pylcm (a b : Nat) : Nat := a * b / pygcd a b

/-- Source function `compute_cycle_ms(durations)`: 2000 if the list is
empty, otherwise the pairwise-`lcm` fold over
`unique = list(set(max(1, d) for d in durations))` started at `unique[0]`,
capped with `min(result, 10000)`.  The Python `set` is embedded as
`List.dedup` of the mapped list (the fold is order-independent, proved
below).  The inner `[]` case is unreachable: deduplicating a nonempty list
yields a nonempty list, and the Python code indexes `unique[0]`
unconditionally. -/
def compute_cycle_ms (durations : List Nat) : Nat :=
  if durations.isEmpty then 2000
  else
    match (durations.map (fun d => max 1 d)).dedup with
    | [] => 2000
    | u :: us => min (us.foldl pylcm u) 10000

/-- Spec-side definition, following the spec's words: "the least common
multiple of the deduplicated set `{max(1, d) : d in D}`".  `List.toFinset`
is the deduplicated set and `Finset.lcm` its least common multiple. -/
def lcmOfSet (D : List Nat) : Nat := ((D.map (fun d => max 1 d)).toFinset).lcm id

/-- Exact ceiling division `⌈a / b⌉` on naturals.  Models the source
expression `math.ceil((max_delay + 1) / cycle_ms)` (see the float note in
the header: the Python float quotient is modelled as an exact rational,
whose ceiling is `(a + b - 1) / b`). -/
def ceil_div (a b : Nat) : Nat := (a + b - 1) / b

/-- Source line `start_ms = cycle_ms * max(1, math.ceil((max_delay + 1) /
cycle_ms))` from `render_svg_to_webp`. -/
def start_ms (cycle_ms max_delay : Nat) : Nat :=
  cycle_ms * max 1 (ceil_div (max_delay + 1) cycle_ms)

/-- Source line `num_frames = int(cycle_ms / FRAME_MS)`: the float quotient
is modelled as an exact rational, whose truncation toward zero on
nonnegative input is Nat floor division. -/
def num_frames (cycle_ms : Nat) : Nat := cycle_ms / FRAME_MS

/-- Source expression `max(delays) if delays else 0` from
`render_svg_to_webp`: Python's `max` of a nonempty list is its fold. -/
def max_delay_of (delays : List Nat) : Nat :=
  match delays with
  | [] => 0
  | d :: ds => ds.foldl max d

-- Basic bridge: the embedded Python gcd/lcm agree with `Nat.gcd`/`Nat.lcm`.

theorem pygcd_eq (a b : Nat) : pygcd a b = Nat.gcd b a := by
  induction b using Nat.strong_induction_on generalizing a with
  | _ b ih =>
    rw [pygcd]
    by_cases hb : b = 0
    · simp [hb]
    · rw [if_neg hb, ih (a % b) (Nat.mod_lt _ (Nat.pos_of_ne_zero hb)) b]
      exact (Nat.gcd_rec b a).symm

theorem pylcm_eq (a b : Nat) : pylcm a b = Nat.lcm a b := by
  rw [pylcm, pygcd_eq, Nat.gcd_comm, Nat.lcm]

theorem foldl_pylcm (l : List Nat) (a : Nat) :
    l.foldl pylcm a = Nat.lcm a (l.foldr Nat.lcm 1) := by
  induction l generalizing a with
  | nil => simp [Nat.lcm_one_right]
  | cons x xs ih =>
    simp only [List.foldl_cons, List.foldr_cons, ih, pylcm_eq, Nat.lcm_assoc]

theorem foldr_lcm_toFinset (l : List Nat) (hl : l.Nodup) :
    l.toFinset.lcm id = l.foldr Nat.lcm 1 := by
  induction l with
  | nil => simp
  | cons x xs ih =>
    rcases List.nodup_cons.mp hl with ⟨_, hnd⟩
    rw [List.foldr_cons, List.toFinset_cons, Finset.lcm_insert, ih hnd,
      lcm_eq_nat_lcm]
    rfl

/-- Characterization of `compute_cycle_ms` shared by several claims. -/
theorem compute_cycle_ms_eq (D : List Nat) :
    compute_cycle_ms D = if D = [] then 2000 else min (lcmOfSet D) 10000 := by
  rcases D with _ | ⟨d, ds⟩
  · rfl
  · rw [compute_cycle_ms, if_neg (by simp)]
    have hne : ((d :: ds).map (fun d => max 1 d)).dedup ≠ [] := by
      intro h
      have : max 1 d ∈ ((d :: ds).map (fun d => max 1 d)).dedup := by
        rw [List.mem_dedup]; exact List.mem_map_of_mem _ (List.mem_cons_self d ds)
      rw [h] at this; exact (List.not_mem_nil _ this)
    have hfin : ((d :: ds).map (fun x => max 1 x)).dedup.toFinset
        = ((d :: ds).map (fun x => max 1 x)).toFinset := by
      ext x; simp [List.mem_dedup]
    rcases hu : ((d :: ds).map (fun d => max 1 d)).dedup with _ | ⟨u, us⟩
    · exact absurd hu hne
    · have hnd : (u :: us).Nodup := hu ▸ List.nodup_dedup _
      have hls : lcmOfSet (d :: ds) = (u :: us).foldr Nat.lcm 1 := by
        rw [lcmOfSet, ← hfin, hu, foldr_lcm_toFinset _ hnd]
      show min (List.foldl pylcm u us) 10000 = min (lcmOfSet (d :: ds)) 10000
      rw [hls, foldl_pylcm, List.foldr_cons]

-- Text extraction (`parse_animation_properties`, source lines 39-66).
-- The three regular expressions are simple enough that their Python
-- backtracking semantics collapses to the deterministic scanners below;
-- each doc comment records the collapse argument.

/-- Unit suffix of a matched time value: the regex group `(s|ms)`. -/
inductive TimeUnit
  | sec
  | ms
deriving DecidableEq, Repr

/-- ASCII subset of the regex class `\s` (Python's `[ \t\n\r\f\v]`). -/
def pyIsSpace (c : Char) : Bool :=
  c = ' ' || c = '\t' || c = '\n' || c = '\r' || c = '\x0b' || c = '\x0c'

/-- Character class `[^;}]` from the shorthand regex. -/
def notBreak (c : Char) : Bool := !(c = ';' || c = '\x7d')

/-- Matches a literal at the head of the input, returning the rest. -/
def dropLit : List Char → List Char → Option (List Char)
  | [], cs => some cs
  | _ :: _, [] => none
  | p :: ps, c :: cs => if p = c then dropLit ps cs else none

/-- Attempts the time regex `(\d+\.?\d*)(s|ms)` at exactly the head of the
input; on success returns (the first group's characters, the unit, the rest
of the input after the match).  Backtracking collapse: shrinking `\d+` or
`\d*` only exposes a digit, and dropping a consumed `\.` exposes a dot —
none of which can start `(s|ms)` — so the greedy parse is the only
candidate, and `s` versus `ms` is decided by the single next character. -/
def matchTime (cs : List Char) : Option ((List Char × TimeUnit) × List Char) :=
  let (d1, r1) := cs.span Char.isDigit
  if d1.isEmpty then none
  else
    let (g, r2) :=
      match r1 with
      | '.' :: t =>
        let (d2, r3) := t.span Char.isDigit
        (d1 ++ '.' :: d2, r3)
      | _ => (d1, r1)
    match r2 with
    | 's' :: rest => some ((g, TimeUnit.sec), rest)
    | 'm' :: 's' :: rest => some ((g, TimeUnit.ms), rest)
    | _ => none

/-- Generic embedding of `re.finditer`/`re.findall`: scan left to right;
on a match, emit it and continue right after it (matches never overlap);
otherwise advance one character.  The fuel starts at the input length,
which bounds the number of steps because every step consumes at least one
character. -/
def scanAux {α : Type} (m : List Char → Option (α × List Char)) :
    Nat → List Char → List α
  | 0, _ => []
  | _ + 1, [] => []
  | fuel + 1, c :: cs =>
    match m (c :: cs) with
    | some (a, rest) => a :: scanAux m fuel rest
    | none => scanAux m fuel cs

/-- Runs a matcher under `re.finditer` semantics over a whole input. -/
def pyFinditer {α : Type} (m : List Char → Option (α × List Char))
    (cs : List Char) : List α :=
  scanAux m cs.length cs

/-- Source: `re.findall(time_re, shorthand)` with
`time_re = r'(\d+\.?\d*)(s|ms)'`. -/
def findTimes (cs : List Char) : List (List Char × TimeUnit) :=
  pyFinditer matchTime cs

/-- Attempts the shorthand regex `animation\s*:\s*([^;}]+)` at exactly the
head of the input, returning (the group, the rest after the match).
Backtracking collapse: whitespace characters are neither `:` nor in `[;}]`,
so the first `\s*` is exactly maximal; for the second `\s*`, if the maximal
run leaves `[^;}]+` empty (next char is `;`, `}` or end), the engine gives
one whitespace character back to the group, which then matches exactly that
character. -/
def matchAnimDecl (cs : List Char) : Option (List Char × List Char) :=
  match dropLit ("animation".toList) cs with
  | none => none
  | some r1 =>
    let (_, r2) := r1.span pyIsSpace
    match r2 with
    | ':' :: r3 =>
      let (w2, r4) := r3.span pyIsSpace
      let (g, r5) := r4.span notBreak
      if g.isEmpty then
        match w2.getLast? with
        | some w => some ([w], r4)
        | none => none
      else some (g, r5)
    | _ => none

/-- Source: `re.finditer(r'animation\s*:\s*([^;}]+)', svg_content)`,
returning each match's first group (the shorthand text). -/
def findAnimDecls (cs : List Char) : List (List Char) :=
  pyFinditer matchAnimDecl cs

/-- Attempts `animation-duration\s*:\s*(\d+\.?\d*)(s|ms)` at exactly the
head of the input.  Backtracking collapse: whitespace is not `:` and not a
digit, so both `\s*` are exactly maximal. -/
def matchAnimDur (cs : List Char) : Option ((List Char × TimeUnit) × List Char) :=
  match dropLit ("animation-duration".toList) cs with
  | none => none
  | some r1 =>
    let (_, r2) := r1.span pyIsSpace
    match r2 with
    | ':' :: r3 =>
      let (_, r4) := r3.span pyIsSpace
      matchTime r4
    | _ => none

/-- Source: `re.finditer(r'animation-duration\s*:\s*(\d+\.?\d*)(s|ms)',
svg_content)`. -/
def findAnimDurations (cs : List Char) : List (List Char × TimeUnit) :=
  pyFinditer matchAnimDur cs

/-- Attempts `dur="(\d+\.?\d*)(s|ms)"` at exactly the head of the input. -/
def matchDurAttr (cs : List Char) : Option ((List Char × TimeUnit) × List Char) :=
  match dropLit ("dur=\"".toList) cs with
  | none => none
  | some r1 =>
    match matchTime r1 with
    | some ((g, u), r2) =>
      match r2 with
      | '"' :: rest => some ((g, u), rest)
      | _ => none
    | none => none

/-- Tries `matchDurAttr` at offsets `k, k-1, ..., 0` into the input and
returns the first success: the greedy `[^>]*` prefers the rightmost
occurrence. -/
def tryDurFrom : Nat → List Char → Option ((List Char × TimeUnit) × List Char)
  | 0, r1 => matchDurAttr r1
  | k + 1, r1 =>
    match matchDurAttr (r1.drop (k + 1)) with
    | some res => some res
    | none => tryDurFrom k r1

/-- Attempts the SMIL regex `<animate[^>]*dur="(\d+\.?\d*)(s|ms)"` at
exactly the head of the input.  Backtracking collapse: the greedy `[^>]*`
consumes up to the first `>` and then shrinks, so the rightmost offset
within that run at which `dur="..."` matches wins; every character the
trailing literals/groups can match is itself distinct from `>`, so a
successful match never crosses the `>` boundary. -/
def matchAnimate (cs : List Char) : Option ((List Char × TimeUnit) × List Char) :=
  match dropLit ("<animate".toList) cs with
  | none => none
  | some r1 => tryDurFrom (r1.takeWhile (fun c => !(c = '>'))).length r1

/-- Source: `re.finditer(r'<animate[^>]*dur="(\d+\.?\d*)(s|ms)"',
svg_content)`. -/
def findAnimateDurs (cs : List Char) : List (List Char × TimeUnit) :=
  pyFinditer matchAnimate cs

/-- Value of a digit string read in base 10. -/
def digitsToNat (ds : List Char) : Nat :=
  ds.foldl (fun n c => n * 10 + (c.toNat - 48)) 0

/-- Decimal decomposition of a matched time group: the group has shape
`digits` or `digits.digits`; returns `(n, k)` with `n` all digits
concatenated and `k` the number of fractional digits, so the written value
is the exact rational `n / 10^k`. -/
def timeParts (g : List Char) : Nat × Nat :=
  let p := g.span Char.isDigit
  let fp := match p.2 with
    | '.' :: t => t
    | _ => []
  (digitsToNat (p.1 ++ fp), fp.length)

/-- Helper for binary64 rounding: `⌊log2 n⌋` for `n ≥ 1` (and 0 at 0),
computed structurally with fuel (each step halves `n`, so fuel `n` is
ample). -/
def nlog2Aux : Nat → Nat → Nat
  | 0, _ => 0
  | fuel + 1, n => if n ≤ 1 then 0 else nlog2Aux fuel (n / 2) + 1

/-- Floor of the base-2 logarithm of a natural number. -/
def nlog2 (n : Nat) : Nat := nlog2Aux n n

/-- Round-half-to-even of the fraction `nn / dd` (`dd ≥ 1`) to an integer:
the IEEE-754 default tie-breaking rule. -/
def rhe (nn dd : Nat) : Nat :=
  let q := nn / dd
  let r := nn % dd
  if 2 * r < dd then q
  else if dd < 2 * r then q + 1
  else if q % 2 = 0 then q else q + 1

/-- Floor of the base-2 logarithm of the positive fraction `N / D`. -/
def ilog2 (N D : Nat) : Int :=
  if D ≤ N then (nlog2 (N / D) : Int)
  else
    let f := nlog2 (D / N)
    if N * 2 ^ f = D then -(f : Int) else -(f : Int) - 1

/-- IEEE-754 binary64 round-to-nearest-even of the nonnegative fraction
`N / D` (`D ≥ 1`), returned as an exact dyadic pair `(m, s)` of value
`m·2^s`: the value is rounded to the grid of multiples of `2^s`, where `s`
sits 52 below the floor of its base-2 logarithm (clamped at the subnormal
cutoff −1022).  The overflow to infinity at `2^1024` (decimal literals of
309+ digits, on which the Python conversion then raises `OverflowError`,
caught by the per-document handler) is not modelled: the rounded value is
returned unbounded.  This model was validated against CPython float
semantics on targeted and randomized inputs. -/
def roundFrac (N D : Nat) : Nat × Int :=
  if N = 0 then (0, 0)
  else
    let e := ilog2 N D
    let s := max e (-1022) - 52
    if 0 ≤ s then (rhe N (D * 2 ^ s.toNat), s)
    else (rhe (N * 2 ^ (-s).toNat) D, s)

/-- The double `float(text)`: CPython parses the decimal `n / 10^k` to the
correctly rounded nearest binary64 value. -/
def floatOfTime (g : List Char) : Nat × Int :=
  roundFrac (timeParts g).1 (10 ^ (timeParts g).2)

/-- IEEE binary64 product of the double `m·2^s` with the exact small
integer `c` (the source's `* (1000 if unit == 's' else 1)` promotes the
int to float and rounds the product). -/
def floatTimes (m : Nat) (s : Int) (c : Nat) : Nat × Int :=
  if 0 ≤ s then roundFrac (m * c * 2 ^ s.toNat) 1
  else roundFrac (m * c) (2 ^ (-s).toNat)

/-- The unit factor `1000 if unit == 's' else 1`. -/
def unitFactor : TimeUnit → Nat
  | TimeUnit.sec => 1000
  | TimeUnit.ms => 1

/-- The double product `float(text) * (1000 | 1)` whose truncation the
program stores. -/
def pyProd (g : List Char) (u : TimeUnit) : Nat × Int :=
  floatTimes (floatOfTime g).1 (floatOfTime g).2 (unitFactor u)

/-- Exact rational value of a dyadic pair `(m, s)`, namely `m·2^s`
(spec-side reading of the double). -/
def dyadic (p : Nat × Int) : ℚ := (p.1 : ℚ) * 2 ^ p.2

/-- Source conversion `int(float(text) * (1000 if unit == 's' else 1))` in
exact binary64 semantics: parse the decimal to the nearest double,
multiply (with rounding) by the unit factor, and truncate toward zero
(`int`), which on these nonnegative values is the floor — computed here on
the dyadic pair with integer arithmetic. -/
def timeValueMs (g : List Char) (u : TimeUnit) : Nat :=
  if 0 ≤ (pyProd g u).2 then (pyProd g u).1 * 2 ^ (pyProd g u).2.toNat
  else (pyProd g u).1 / 2 ^ (-(pyProd g u).2).toNat

/-- Exact decimal value of a matched time group (spec-side; the double
`float(text)` is its correctly rounded binary64 approximation).  Used to
exhibit where the double rounding deviates from exact arithmetic. -/
def ratValue (g : List Char) : ℚ :=
  ((timeParts g).1 : ℚ) / 10 ^ (timeParts g).2

/-- Body of the shorthand loop (source lines 46-54): on one shorthand match
`g`, `times = findall(time_re, g)`; `if times:` appends the first time value
to `durations`; `if len(times) >= 2:` appends the second to `delays`. -/
def shorthandStep (acc : List Nat × List Nat) (g : List Char) :
    List Nat × List Nat :=
  let times := findTimes g
  let acc1 := match times.head? with
    | some t => (acc.1 ++ [timeValueMs t.1 t.2], acc.2)
    | none => acc
  match times.get? 1 with
  | some t => (acc1.1, acc1.2 ++ [timeValueMs t.1 t.2])
  | none => acc1

/-- Source function `parse_animation_properties(svg_content)`: the first
loop walks the shorthand matches appending the first time value to
`durations` and the second (if any) to `delays`; the second and third
loops append every `animation-duration` and SMIL `dur` value to
`durations`. -/
def parse_animation_properties (svg : List Char) : List Nat × List Nat :=
  let acc := (findAnimDecls svg).foldl shorthandStep ([], [])
  (acc.1 ++ (findAnimDurations svg).map (fun t => timeValueMs t.1 t.2)
        ++ (findAnimateDurs svg).map (fun t => timeValueMs t.1 t.2),
   acc.2)

/-- Spec-side: the duration extracted from one shorthand declaration (the
first time value, if any). -/
def shorthandDuration? (g : List Char) : Option Nat :=
  ((findTimes g).head?).map (fun t => timeValueMs t.1 t.2)

/-- Spec-side: the delay extracted from one shorthand declaration (the
second time value, if present). -/
def shorthandDelay? (g : List Char) : Option Nat :=
  ((findTimes g).get? 1).map (fun t => timeValueMs t.1 t.2)

-- Sample plan and frame capture (`render_svg_to_webp`, source lines 107-168).

/-- The per-document sample plan `(cycle_ms, start_ms, num_frames)` computed
by `render_svg_to_webp` from the document text alone (source lines
111-119). -/
def samplePlan (svg : List Char) : Nat × Nat × Nat :=
  let parsed := parse_animation_properties svg
  let cycle := compute_cycle_ms parsed.1
  (cycle, start_ms cycle (max_delay_of parsed.2), num_frames cycle)

/-- The capture loop `for i in range(num_frames): t_ms = start_ms + i *
FRAME_MS; ... frames.append(img)` (source lines 131-155), modelled by the
list of sample times in append order; each iteration captures exactly one
frame, so the list has one entry per frame. -/
def sampleTimesAux (start : Nat) : Nat → List Nat
  | 0 => []
  | n + 1 => sampleTimesAux start n ++ [start + n * FRAME_MS]

/-- Sample times of one document's conversion. -/
def sampleTimes (svg : List Char) : List Nat :=
  sampleTimesAux (samplePlan svg).2.1 (samplePlan svg).2.2

/-- Source lines 157-166: `if frames:` guards the single `save` call, so one
output file is written when at least one frame was captured and none
otherwise. -/
def outputs_written (svg : List Char) : Nat :=
  if (sampleTimes svg).isEmpty then 0 else 1

-- Output naming (`main`, source lines 179-181).

/-- The suffix marker `'-animated'` stripped by `main`. -/
def animatedMarker : List Char := "-animated".toList

/-- Source expression `svg_path.stem.replace('-animated', '')`: Python
`str.replace` scans left to right and removes every (non-overlapping)
occurrence of the pattern, continuing after each removal.  Embedded with
fuel equal to the input length, an upper bound on the number of steps since
every step consumes at least one character (the pattern in the program is
nonempty). -/
def replaceDropAux (pat : List Char) : Nat → List Char → List Char
  | 0, s => s
  | _ + 1, [] => []
  | fuel + 1, c :: cs =>
    if pat.isPrefixOf (c :: cs) then
      replaceDropAux pat fuel ((c :: cs).drop pat.length)
    else c :: replaceDropAux pat fuel cs

/-- Python `s.replace(pat, '')` for nonempty `pat`. -/
def pyReplaceDrop (s pat : List Char) : List Char :=
  replaceDropAux pat s.length s

/-- Source lines 180-181: `name = svg_path.stem.replace('-animated', '');
output = ICONS_DIR / f"{name}.webp"` — the output file name derived from the
input's base name (stem). -/
def outputFileName (stem : List Char) : List Char :=
  pyReplaceDrop stem animatedMarker ++ ".webp".toList

-- Per-document error handling (`main`, source lines 179-187).

/-- The conversion loop of `main`: each document is converted inside
`try: await render_svg_to_webp(...) except Exception as e: print(ERROR)`.
A raised exception is modelled as `Except.error` (the caught, logged
message); a completed conversion as `Except.ok`.  The loop records one
outcome per document and always continues with the next document; the
render capability is the external parameter `render`. -/
def runBatch {Doc Err Out : Type} (render : Doc → Except Err Out) :
    List Doc → List (Doc × Except Err Out)
  | [] => []
  | d :: ds => (d, render d) :: runBatch render ds

-- Claim theorems.

/-- C1: for every list of extracted durations `D`, `compute_cycle_ms D`
equals 2000 when `D` is empty, and otherwise equals `min 10000 L` where `L`
is the least common multiple of the deduplicated set
`{max 1 d : d ∈ D}` (formalized as `lcmOfSet`). -/
theorem c1_compute_cycle_ms_spec (D : List Nat) :
    compute_cycle_ms D = if D = [] then 2000 else min 10000 (lcmOfSet D) := by
  rw [compute_cycle_ms_eq]
  rcases D with _ | _
  · rfl
  · rw [Nat.min_comm]

/-- C4: `compute_cycle_ms` is invariant under duplication and reordering of
its input: lists with the same set of values yield the same cycle. -/
theorem c4_compute_cycle_ms_set_invariant (D1 D2 : List Nat)
    (h : D1.toFinset = D2.toFinset) :
    compute_cycle_ms D1 = compute_cycle_ms D2 := by
  have hm : ∀ a, a ∈ D1 ↔ a ∈ D2 := fun a => by
    rw [← List.mem_toFinset, h, List.mem_toFinset]
  have hmap : (D1.map (fun d => max 1 d)).toFinset
      = (D2.map (fun d => max 1 d)).toFinset := by
    ext x
    simp only [List.mem_toFinset, List.mem_map]
    constructor <;> rintro ⟨a, ha, rfl⟩
    · exact ⟨a, (hm a).mp ha, rfl⟩
    · exact ⟨a, (hm a).mpr ha, rfl⟩
  have hemp : D1 = [] ↔ D2 = [] := by
    rw [← List.toFinset_eq_empty_iff, ← List.toFinset_eq_empty_iff, h]
  rw [compute_cycle_ms_eq, compute_cycle_ms_eq]
  by_cases h1 : D1 = []
  · rw [if_pos h1, if_pos (hemp.mp h1)]
  · rw [if_neg h1, if_neg (fun hh => h1 (hemp.mpr hh)), lcmOfSet, lcmOfSet, hmap]

/-- Witness for C4 at a concrete pair of lists with equal value sets. -/
theorem c4_witness :
    ([1000, 1500, 1000] : List Nat).toFinset = ([1500, 1000] : List Nat).toFinset
    ∧ compute_cycle_ms [1000, 1500, 1000] = compute_cycle_ms [1500, 1000] :=
  ⟨by decide, c4_compute_cycle_ms_set_invariant _ _ (by decide)⟩

/-- C2: for `cycle ≥ 1`, the start offset is a positive multiple of the
cycle length, strictly greater than the max delay, and the smallest
positive multiple with that property. -/
theorem c2_start_offset_spec (cycle m : Nat) (hc : 1 ≤ cycle) :
    cycle ∣ start_ms cycle m ∧ 0 < start_ms cycle m ∧ m < start_ms cycle m ∧
      ∀ k, 0 < k → m < cycle * k → start_ms cycle m ≤ cycle * k := by
  have hcpos : 0 < cycle := hc
  have hceil : ceil_div (m + 1) cycle = m / cycle + 1 := by
    rw [ceil_div]
    have harith : m + 1 + cycle - 1 = m + cycle := by omega
    rw [harith, Nat.add_div_right _ hcpos]
  have hmax : max 1 (m / cycle + 1) = m / cycle + 1 :=
    Nat.max_eq_right (Nat.succ_le_succ (Nat.zero_le _))
  have hstart : start_ms cycle m = cycle * (m / cycle + 1) := by
    rw [start_ms, hceil, hmax]
  refine ⟨⟨m / cycle + 1, hstart⟩, ?_, ?_, ?_⟩
  · rw [hstart]
    exact Nat.mul_pos hcpos (Nat.succ_pos _)
  · rw [hstart, Nat.mul_comm]
    exact (Nat.div_lt_iff_lt_mul hcpos).mp (Nat.lt_succ_self _)
  · intro k hk hmk
    rw [hstart]
    have : m / cycle < k :=
      (Nat.div_lt_iff_lt_mul hcpos).mpr (by rw [Nat.mul_comm]; exact hmk)
    exact Nat.mul_le_mul_left cycle (by omega)

/-- Witness for C2 at the spec's example `cycle = 3000`, `max_delay = 2500`
(and `k = 1` for minimality): the start offset is 3000. -/
theorem c2_witness :
    start_ms 3000 2500 = 3000
    ∧ (3000 : Nat) ∣ start_ms 3000 2500
    ∧ 2500 < start_ms 3000 2500
    ∧ start_ms 3000 2500 ≤ 3000 * 1 :=
  ⟨by decide, (c2_start_offset_spec 3000 2500 (by decide)).1,
    (c2_start_offset_spec 3000 2500 (by decide)).2.2.1,
    (c2_start_offset_spec 3000 2500 (by decide)).2.2.2 1 (by decide) (by decide)⟩

/-- C3: the frame count is `⌊cycle / 50⌋` at 20 fps, so the sampled window
spans exactly one cycle up to floor truncation; the spec's examples 3000 →
60 and 2000 → 40 hold. -/
theorem c3_frame_count_spec (cycle : Nat) :
    num_frames cycle = cycle / 50
    ∧ FRAME_MS = 50
    ∧ num_frames cycle * FRAME_MS ≤ cycle
    ∧ cycle < (num_frames cycle + 1) * FRAME_MS
    ∧ num_frames 3000 = 60 ∧ num_frames 2000 = 40 := by
  refine ⟨rfl, rfl, ?_, ?_, rfl, rfl⟩
  · show cycle / 50 * 50 ≤ cycle
    omega
  · show cycle < (cycle / 50 + 1) * 50
    omega

theorem nlog2Aux_spec (fuel : Nat) : ∀ n : Nat, 1 ≤ n → n ≤ fuel →
    2 ^ nlog2Aux fuel n ≤ n ∧ n < 2 ^ (nlog2Aux fuel n + 1) := by
  induction fuel with
  | zero => intro n h1 h2; omega
  | succ fuel ih =>
    intro n h1 h2
    rw [nlog2Aux]
    by_cases hn : n ≤ 1
    · rw [if_pos hn]
      have hone : n = 1 := by omega
      subst hone
      norm_num
    · rw [if_neg hn]
      have h1' : 1 ≤ n / 2 := by omega
      have h2' : n / 2 ≤ fuel := by omega
      obtain ⟨ha, hb⟩ := ih (n / 2) h1' h2'
      constructor
      · rw [pow_succ]
        omega
      · rw [pow_succ]
        omega

theorem nlog2_spec (n : Nat) (h : 1 ≤ n) :
    2 ^ nlog2 n ≤ n ∧ n < 2 ^ (nlog2 n + 1) :=
  nlog2Aux_spec n n h le_rfl

theorem nlog2_le_52 (n : Nat) (h1 : 1 ≤ n) (h53 : n < 2 ^ 53) : nlog2 n ≤ 52 := by
  by_contra hc
  have h2 : (2 : ℕ) ^ 53 ≤ 2 ^ nlog2 n := Nat.pow_le_pow_right (by norm_num) (by omega)
  have h3 := (nlog2_spec n h1).1
  omega

theorem rhe_exact (dd c : Nat) (hD : 0 < dd) : rhe (dd * c) dd = c := by
  have hmod : dd * c % dd = 0 := Nat.mul_mod_right dd c
  have hdiv : dd * c / dd = c := Nat.mul_div_cancel_left c hD
  simp only [rhe, hmod, hdiv, Nat.mul_zero]
  rw [if_pos hD]

/-- A fraction whose value is an exact integer below `2^53` is rounded to
itself, with the canonical exponent. -/
theorem roundFrac_int (D V : Nat) (hD : 0 < D) (h1 : 1 ≤ V) (h53 : V < 2 ^ 53) :
    roundFrac (D * V) D = (V * 2 ^ (52 - nlog2 V), (nlog2 V : Int) - 52) := by
  have hN : ¬ (D * V = 0) := by
    have : 0 < D * V := Nat.mul_pos hD h1
    omega
  have hDle : D ≤ D * V := by
    calc D = D * 1 := (Nat.mul_one D).symm
    _ ≤ D * V := Nat.mul_le_mul_left D h1
  have hdiv : D * V / D = V := Nat.mul_div_cancel_left V hD
  have hlog : ilog2 (D * V) D = (nlog2 V : Int) := by
    rw [ilog2, if_pos hDle, hdiv]
  have hL52 : nlog2 V ≤ 52 := nlog2_le_52 V h1 h53
  have hmax : max ((nlog2 V : Int)) (-1022) = (nlog2 V : Int) :=
    max_eq_left (by omega)
  simp only [roundFrac]
  rw [if_neg hN, hlog, hmax]
  rcases Nat.lt_or_ge (nlog2 V) 52 with hlt | hge
  · rw [if_neg (by omega)]
    have htn : (-((nlog2 V : Int) - 52)).toNat = 52 - nlog2 V := by omega
    rw [htn]
    have hmul : D * V * 2 ^ (52 - nlog2 V) = D * (V * 2 ^ (52 - nlog2 V)) := by ring
    rw [hmul, rhe_exact D _ hD]
  · have h52 : nlog2 V = 52 := le_antisymm hL52 hge
    rw [h52]
    rw [if_pos (by norm_num)]
    have ht0 : (((52 : ℕ) : Int) - 52).toNat = 0 := by norm_num
    rw [ht0]
    have hD1 : D * 2 ^ 0 = D := by norm_num
    rw [hD1]
    have hr : rhe (D * V) D = V := by
      have := rhe_exact D V hD
      exact this
    rw [hr]
    norm_num

/-- Multiplying an exactly representable integer double by an integer whose
product stays below `2^53` is exact. -/
theorem floatTimes_int (n c : Nat) (hn : 1 ≤ n) (hc : 1 ≤ c) (hn53 : n < 2 ^ 53)
    (hnc53 : n * c < 2 ^ 53) :
    floatTimes (n * 2 ^ (52 - nlog2 n)) ((nlog2 n : Int) - 52) c
      = (n * c * 2 ^ (52 - nlog2 (n * c)), (nlog2 (n * c) : Int) - 52) := by
  have hL52 : nlog2 n ≤ 52 := nlog2_le_52 n hn hn53
  have hnc1 : 1 ≤ n * c := Nat.mul_pos hn hc
  rw [floatTimes]
  rcases Nat.lt_or_ge (nlog2 n) 52 with hlt | hge
  · rw [if_neg (by omega)]
    have htn : (-((nlog2 n : Int) - 52)).toNat = 52 - nlog2 n := by omega
    rw [htn]
    have hmul : n * 2 ^ (52 - nlog2 n) * c = 2 ^ (52 - nlog2 n) * (n * c) := by ring
    rw [hmul]
    exact roundFrac_int (2 ^ (52 - nlog2 n)) (n * c)
      (Nat.pow_pos (by norm_num)) hnc1 hnc53
  · have h52 : nlog2 n = 52 := le_antisymm hL52 hge
    rw [h52]
    rw [if_pos (by norm_num)]
    have ht0 : (((52 : ℕ) : Int) - 52).toNat = 0 := by norm_num
    rw [ht0]
    have hred : n * 2 ^ (52 - 52) * c * 2 ^ 0 = 1 * (n * c) := by norm_num
    rw [hred]
    exact roundFrac_int 1 (n * c) one_pos hnc1 hnc53

/-- Truncating an exact-integer double below `2^53` returns the integer. -/
theorem dyadicFloor_int (V : Nat) (h1 : 1 ≤ V) (h53 : V < 2 ^ 53) :
    (if 0 ≤ ((nlog2 V : Int) - 52)
      then V * 2 ^ (52 - nlog2 V) * 2 ^ ((nlog2 V : Int) - 52).toNat
      else V * 2 ^ (52 - nlog2 V) / 2 ^ (-((nlog2 V : Int) - 52)).toNat) = V := by
  have hL52 : nlog2 V ≤ 52 := nlog2_le_52 V h1 h53
  rcases Nat.lt_or_ge (nlog2 V) 52 with hlt | hge
  · rw [if_neg (by omega)]
    have htn : (-((nlog2 V : Int) - 52)).toNat = 52 - nlog2 V := by omega
    rw [htn, Nat.mul_div_assoc V (dvd_refl _),
      Nat.div_self (Nat.pow_pos (by norm_num)), Nat.mul_one]
  · have h52 : nlog2 V = 52 := le_antisymm hL52 hge
    rw [h52]
    rw [if_pos (by norm_num)]
    have ht0 : (((52 : ℕ) : Int) - 52).toNat = 0 := by norm_num
    rw [ht0]
    norm_num

/-- A group consisting only of digits decomposes into its integer value
with no fractional digits. -/
theorem timeParts_all_digits (g : List Char) (h : g.all Char.isDigit = true) :
    timeParts g = (digitsToNat g, 0) := by
  have hall : ∀ x ∈ g, Char.isDigit x := fun x hx => List.all_eq_true.mp h x hx
  have htake : g.takeWhile Char.isDigit = g := List.takeWhile_eq_self_iff.mpr hall
  have hdrop : g.dropWhile Char.isDigit = [] := List.dropWhile_eq_nil_iff.mpr hall
  rw [timeParts, List.span_eq_take_drop, htake, hdrop]
  simp

/-- On whole-number time values whose product with 1000 stays below `2^53`,
the double conversion and multiplication are exact, so the stored integer
is the exact value (times 1000 for seconds). -/
theorem timeValueMs_int_exact (g : List Char) (hdig : g.all Char.isDigit = true)
    (hbound : digitsToNat g * 1000 < 2 ^ 53) :
    timeValueMs g TimeUnit.sec = digitsToNat g * 1000
    ∧ timeValueMs g TimeUnit.ms = digitsToNat g := by
  have hparts : timeParts g = (digitsToNat g, 0) := timeParts_all_digits g hdig
  have hn53 : digitsToNat g < 2 ^ 53 := by
    have hle : digitsToNat g ≤ digitsToNat g * 1000 :=
      Nat.le_mul_of_pos_right _ (by norm_num)
    omega
  rcases Nat.eq_zero_or_pos (digitsToNat g) with h0 | hpos
  · have hfv : floatOfTime g = (0, 0) := by
      rw [floatOfTime, hparts]
      show roundFrac (digitsToNat g) (10 ^ 0) = (0, 0)
      rw [h0]
      rfl
    constructor <;> (rw [timeValueMs, pyProd, hfv, h0]; decide)
  · have hfv : floatOfTime g
        = (digitsToNat g * 2 ^ (52 - nlog2 (digitsToNat g)),
           (nlog2 (digitsToNat g) : Int) - 52) := by
      rw [floatOfTime, hparts]
      show roundFrac (digitsToNat g) (10 ^ 0) = _
      rw [pow_zero]
      have h := roundFrac_int 1 (digitsToNat g) one_pos hpos hn53
      rw [one_mul] at h
      exact h
    constructor
    · have hprod : pyProd g TimeUnit.sec
          = (digitsToNat g * 1000 * 2 ^ (52 - nlog2 (digitsToNat g * 1000)),
             (nlog2 (digitsToNat g * 1000) : Int) - 52) := by
        rw [pyProd, hfv]
        show floatTimes (digitsToNat g * 2 ^ (52 - nlog2 (digitsToNat g)))
            ((nlog2 (digitsToNat g) : Int) - 52) (unitFactor TimeUnit.sec) = _
        exact floatTimes_int (digitsToNat g) 1000 hpos (by norm_num) hn53 hbound
      rw [timeValueMs, hprod]
      exact dyadicFloor_int (digitsToNat g * 1000)
        (Nat.mul_pos hpos (by norm_num)) hbound
    · have hprod : pyProd g TimeUnit.ms
          = (digitsToNat g * 2 ^ (52 - nlog2 (digitsToNat g)),
             (nlog2 (digitsToNat g) : Int) - 52) := by
        rw [pyProd, hfv]
        show floatTimes (digitsToNat g * 2 ^ (52 - nlog2 (digitsToNat g)))
            ((nlog2 (digitsToNat g) : Int) - 52) (unitFactor TimeUnit.ms) = _
        have h := floatTimes_int (digitsToNat g) 1 hpos le_rfl hn53 (by omega)
        rw [Nat.mul_one] at h
        exact h
      rw [timeValueMs, hprod]
      exact dyadicFloor_int (digitsToNat g) hpos hn53

/-- The stored integer is the floor of the dyadic value of the double
product, computed with integer arithmetic. -/
theorem floor_dyadic (p : Nat × Int) :
    ⌊dyadic p⌋ = ((if 0 ≤ p.2 then p.1 * 2 ^ p.2.toNat
      else p.1 / 2 ^ (-p.2).toNat : ℕ) : Int) := by
  rcases p with ⟨m, t⟩
  show ⌊(m : ℚ) * 2 ^ t⌋ = _
  by_cases ht : 0 ≤ t
  · rw [if_pos ht]
    have h2 : (2 : ℚ) ^ t = ((2 ^ t.toNat : ℕ) : ℚ) := by
      push_cast
      rw [← zpow_natCast (2 : ℚ) t.toNat]
      congr 1
      omega
    rw [h2, ← Nat.cast_mul, Int.floor_natCast]
  · rw [if_neg ht]
    have h2 : (2 : ℚ) ^ t = (((2 ^ (-t).toNat : ℕ) : ℚ))⁻¹ := by
      have hneg : t = -(((-t).toNat : ℕ) : Int) := by omega
      conv_lhs => rw [hneg]
      rw [zpow_neg, zpow_natCast]
      push_cast
      ring
    rw [h2, ← div_eq_mul_inv]
    have hx : (0 : ℚ) ≤ (m : ℚ) / ((2 ^ (-t).toNat : ℕ) : ℚ) := by positivity
    have hnn : 0 ≤ ⌊(m : ℚ) / ((2 ^ (-t).toNat : ℕ) : ℚ)⌋ := Int.floor_nonneg.mpr hx
    have hfl : ⌊(m : ℚ) / ((2 ^ (-t).toNat : ℕ) : ℚ)⌋₊ = m / 2 ^ (-t).toNat := by
      rw [Nat.floor_div_nat, Nat.floor_natCast]
    rw [← Int.toNat_of_nonneg hnn, Int.floor_toNat, hfl]

theorem foldl_shorthandStep (l : List (List Char)) (a b : List Nat) :
    l.foldl shorthandStep (a, b)
      = (a ++ l.filterMap shorthandDuration?, b ++ l.filterMap shorthandDelay?) := by
  induction l generalizing a b with
  | nil => simp
  | cons g gs ih =>
    rw [List.foldl_cons, List.filterMap_cons, List.filterMap_cons]
    have hstep : shorthandStep (a, b) g
        = (a ++ (shorthandDuration? g).toList, b ++ (shorthandDelay? g).toList) := by
      rw [shorthandStep, shorthandDuration?, shorthandDelay?]
      cases h1 : (findTimes g).head? <;> cases h2 : (findTimes g).get? 1 <;>
        simp [h1, h2]
    rw [hstep, ih]
    cases h1 : shorthandDuration? g <;> cases h2 : shorthandDelay? g <;>
      simp [h1, h2]

/-- C5 counterexample: the conversion is not exact `seconds × 1000`.  For
the ordinary literal `1.001s` the exact product is the integer 1001, but
`float('1.001') * 1000` is the double `1000.9999999999999`, so the program
stores 1000 — exhibited end-to-end through the parser. -/
theorem c5_counterexample :
    timeValueMs ("1.001".toList) TimeUnit.sec = 1000
    ∧ (1000 : ℚ) * ratValue ("1.001".toList) = 1001
    ∧ parse_animation_properties ("animation-duration:1.001s".toList) = ([1000], []) := by
  refine ⟨by decide, ?_, by decide⟩
  have hp : timeParts ("1.001".toList) = (1001, 3) := by decide
  rw [ratValue, hp]
  norm_num

/-- C5 as amended: `parse_animation_properties` returns, as durations, the
first time value of each `animation:` shorthand declaration followed by
every `animation-duration` value and every SMIL `dur` value; as delays, the
second time value of each shorthand declaration; and each time value is
converted to integer milliseconds by IEEE double arithmetic — parse the
decimal to the nearest double, for seconds multiply by 1000 as doubles,
then truncate — which agrees with exact `seconds × 1000` on whole-number
time values (below `2^53 / 1000`), though it can undershoot by 1 ms on
fractional literals such as `1.001s`. -/
theorem c5_extraction_amended (svg : List Char) :
    (parse_animation_properties svg).1
      = (findAnimDecls svg).filterMap shorthandDuration?
        ++ (findAnimDurations svg).map (fun t => timeValueMs t.1 t.2)
        ++ (findAnimateDurs svg).map (fun t => timeValueMs t.1 t.2)
    ∧ (parse_animation_properties svg).2
      = (findAnimDecls svg).filterMap shorthandDelay?
    ∧ (∀ g : List Char, g.all Char.isDigit = true → digitsToNat g * 1000 < 2 ^ 53 →
        timeValueMs g TimeUnit.sec = digitsToNat g * 1000
        ∧ timeValueMs g TimeUnit.ms = digitsToNat g) := by
  refine ⟨?_, ?_, fun g h1 h2 => timeValueMs_int_exact g h1 h2⟩ <;>
    rw [parse_animation_properties, foldl_shorthandStep] <;>
    simp [List.append_assoc]

/-- Witness for C5 (amended) at the whole-number time value `2`. -/
theorem c5_witness :
    (("2".toList).all Char.isDigit = true
      ∧ digitsToNat ("2".toList) * 1000 < 2 ^ 53)
    ∧ timeValueMs ("2".toList) TimeUnit.sec = digitsToNat ("2".toList) * 1000
    ∧ timeValueMs ("2".toList) TimeUnit.ms = digitsToNat ("2".toList) :=
  ⟨⟨by decide, by decide⟩,
    ((c5_extraction_amended []).2.2 ("2".toList) (by decide) (by decide)).1,
    ((c5_extraction_amended []).2.2 ("2".toList) (by decide) (by decide)).2⟩

/-- C6: the `try/except` sits at the per-document boundary, so every
document in the batch is processed regardless of earlier failures (the list
of processed documents is the input list), and a batch of one convertible
document and one document whose rendering throws yields the artifact of the
first and the logged error of the second; the loop is a total function, so
the run ends normally. -/
theorem c6_batch_error_isolation {Doc Err Out : Type}
    (render : Doc → Except Err Out) (d1 d2 : Doc) (a : Out) (e : Err) :
    (∀ docs : List Doc, (runBatch render docs).map Prod.fst = docs)
    ∧ (render d1 = Except.ok a → render d2 = Except.error e →
        runBatch render [d1, d2] = [(d1, Except.ok a), (d2, Except.error e)]) := by
  constructor
  · intro docs
    induction docs with
    | nil => rfl
    | cons d ds ih => rw [runBatch, List.map_cons, ih]
  · intro h1 h2
    rw [runBatch, runBatch, runBatch, h1, h2]

/-- Witness for C6: a concrete two-document batch in which the first
document converts and the second throws. -/
theorem c6_witness :
    runBatch (fun d : Nat => if d = 0 then (Except.ok 7 : Except String Nat)
        else Except.error "render failed") [0, 1]
      = [(0, Except.ok 7), (1, Except.error "render failed")] :=
  (c6_batch_error_isolation
    (fun d : Nat => if d = 0 then (Except.ok 7 : Except String Nat)
      else Except.error "render failed") 0 1 7 "render failed").2 rfl rfl

theorem sampleTimesAux_length (s n : Nat) : (sampleTimesAux s n).length = n := by
  induction n with
  | zero => rfl
  | succ n ih => rw [sampleTimesAux, List.length_append, ih]; rfl

theorem sampleTimesAux_range (s n : Nat) :
    sampleTimesAux s n = (List.range n).map (fun i => s + i * FRAME_MS) := by
  induction n with
  | zero => rfl
  | succ n ih => rw [sampleTimesAux, List.range_succ, List.map_append, ih]; rfl

/-- C7 counterexample: the document `animation:a 1ms` parses to the single
duration 1 ms, so the cycle is 1 ms, the frame count is 0, the capture loop
runs zero times, the `if frames:` guard fails, and no output file is
written even though the conversion runs to completion. -/
theorem c7_counterexample :
    parse_animation_properties ("animation:a 1ms".toList) = ([1], [])
    ∧ samplePlan ("animation:a 1ms".toList) = (1, 1, 0)
    ∧ sampleTimes ("animation:a 1ms".toList) = []
    ∧ outputs_written ("animation:a 1ms".toList) = 0 := by
  refine ⟨by decide, by decide, ?_, by decide⟩
  rfl

/-- C7 as amended: a conversion that runs to completion writes exactly one
output file when at least one frame is sampled — the frame count
`⌊cycle / FRAME_MS⌋` is positive, i.e. the cycle length is at least one
frame interval — and writes no file otherwise. -/
theorem c7_output_written_iff (svg : List Char) :
    (outputs_written svg = 1 ↔ FRAME_MS ≤ (samplePlan svg).1)
    ∧ (outputs_written svg = 0 ↔ (samplePlan svg).1 < FRAME_MS) := by
  have hlen : (sampleTimes svg).length = (samplePlan svg).1 / 50 :=
    sampleTimesAux_length _ _
  have key : outputs_written svg = if (samplePlan svg).1 < 50 then 0 else 1 := by
    rw [outputs_written]
    rcases h : sampleTimes svg with _ | ⟨t, ts⟩
    · rw [h] at hlen
      have hc : (samplePlan svg).1 < 50 := by
        have h0 : (0 : Nat) = (samplePlan svg).1 / 50 := hlen
        omega
      rw [if_pos hc]
      rfl
    · rw [h] at hlen
      have hc : ¬ (samplePlan svg).1 < 50 := by
        have h0 : ts.length + 1 = (samplePlan svg).1 / 50 := by
          simpa using hlen
        omega
      rw [if_neg hc]
      rfl
  have hfm : FRAME_MS = 50 := rfl
  rw [hfm, key]
  by_cases hc : (samplePlan svg).1 < 50
  · rw [if_pos hc]
    refine ⟨⟨fun h01 => absurd h01 (by decide), fun hle => absurd hc (by omega)⟩,
      ⟨fun _ => hc, fun _ => rfl⟩⟩
  · rw [if_neg hc]
    refine ⟨⟨fun _ => by omega, fun _ => rfl⟩,
      ⟨fun h10 => absurd h10 (by decide), fun hlt => absurd hlt hc⟩⟩

/-- C8 counterexample: Python `str.replace` removes every occurrence of
`'-animated'`, not only the trailing suffix, so the stem
`a-animated-animated` maps to `a.webp` rather than to the suffix-stripped
`a-animated.webp`. -/
theorem c8_counterexample :
    outputFileName ("a-animated-animated".toList) = "a.webp".toList
    ∧ outputFileName ("a-animated-animated".toList)
        ≠ "a-animated".toList ++ ".webp".toList := by
  exact ⟨by decide, by decide⟩

theorem replaceDrop_strip (base : List Char)
    (h : ∀ i, i < base.length →
      animatedMarker.isPrefixOf ((base ++ animatedMarker).drop i) = false) :
    pyReplaceDrop (base ++ animatedMarker) animatedMarker = base := by
  revert h
  induction base with
  | nil =>
    intro _
    decide
  | cons c bs ih =>
    intro h
    have h' : ∀ i, i < bs.length →
        animatedMarker.isPrefixOf ((bs ++ animatedMarker).drop i) = false := by
      intro i hi
      have hstep := h (i + 1) (by simpa using Nat.succ_lt_succ hi)
      simpa using hstep
    have h0 : animatedMarker.isPrefixOf (c :: (bs ++ animatedMarker)) = false := by
      have hstep := h 0 (Nat.succ_pos _)
      simpa using hstep
    rw [pyReplaceDrop]
    simp only [List.cons_append, List.length_cons, replaceDropAux, List.append_eq]
    rw [h0, if_neg (by decide)]
    exact congrArg (c :: ·) (ih h')

/-- C8 as amended: the output name is obtained by deleting every
left-to-right non-overlapping occurrence of `'-animated'` from the base
name and appending `.webp`; when the marker occurs in the base name only as
its trailing suffix, this coincides with removing the suffix. -/
theorem c8_output_name_amended (base : List Char)
    (h : ∀ i, i < base.length →
      animatedMarker.isPrefixOf ((base ++ animatedMarker).drop i) = false) :
    outputFileName (base ++ animatedMarker) = base ++ ".webp".toList := by
  rw [outputFileName, replaceDrop_strip base h]

/-- Witness for C8 (amended) at the stem `spin-animated`. -/
theorem c8_witness :
    (∀ i, i < ("spin".toList).length →
      animatedMarker.isPrefixOf ((("spin".toList) ++ animatedMarker).drop i) = false)
    ∧ outputFileName (("spin".toList) ++ animatedMarker)
        = ("spin".toList) ++ ".webp".toList :=
  ⟨by decide, c8_output_name_amended ("spin".toList) (by decide)⟩

/-- C9: the sample plan and the sample-time sequence are functions of the
document text alone — equal texts yield equal plans and equal sequences —
and the sequence has the closed form `start_offset + i * FRAME_MS` for
`i < num_frames`. -/
theorem c9_sample_plan_deterministic (svg1 svg2 : List Char) (h : svg1 = svg2) :
    samplePlan svg1 = samplePlan svg2
    ∧ sampleTimes svg1 = sampleTimes svg2
    ∧ sampleTimes svg1 = (List.range (samplePlan svg1).2.2).map
        (fun i => (samplePlan svg1).2.1 + i * FRAME_MS) := by
  subst h
  exact ⟨rfl, rfl, sampleTimesAux_range _ _⟩

/-- Witness for C9 at a concrete document text. -/
theorem c9_witness :
    samplePlan ("animation:b 2s".toList) = samplePlan ("animation:b 2s".toList)
    ∧ sampleTimes ("animation:b 2s".toList)
      = (List.range (samplePlan ("animation:b 2s".toList)).2.2).map
          (fun i => (samplePlan ("animation:b 2s".toList)).2.1 + i * FRAME_MS) :=
  ⟨(c9_sample_plan_deterministic _ _ rfl).1,
    (c9_sample_plan_deterministic _ _ rfl).2.2⟩

/-- C10: time-value conversion truncates toward zero rather than rounding:
the stored integer is the floor (= truncation, the values being
nonnegative) of the double product `float(text) * (1000 | 1)`; concretely
`1.5ms` is stored as 1 ms (rounding would give 2) and `0.0004s` as 0 ms —
both end-to-end through the parser — and `compute_cycle_ms` floors the
degenerate 0 ms duration to a 1 ms cycle. -/
theorem c10_truncation_of_double_product :
    (∀ (g : List Char) (u : TimeUnit),
      (timeValueMs g u : Int) = ⌊dyadic (pyProd g u)⌋
        ∧ (timeValueMs g u : ℚ) ≤ dyadic (pyProd g u)
        ∧ dyadic (pyProd g u) < (timeValueMs g u : ℚ) + 1)
    ∧ timeValueMs ("1.5".toList) TimeUnit.ms = 1
    ∧ timeValueMs ("0.0004".toList) TimeUnit.sec = 0
    ∧ parse_animation_properties ("animation: x 1.5ms".toList) = ([1], [])
    ∧ parse_animation_properties ("animation-duration: 0.0004s".toList) = ([0], [])
    ∧ compute_cycle_ms [0] = 1 := by
  refine ⟨fun g u => ?_, by decide, by decide, by decide, by decide, by decide⟩
  have hi : (timeValueMs g u : Int) = ⌊dyadic (pyProd g u)⌋ := by
    rw [timeValueMs, floor_dyadic]
  have hiq : ((⌊dyadic (pyProd g u)⌋ : Int) : ℚ) = (timeValueMs g u : ℚ) := by
    exact_mod_cast congrArg (fun z : Int => (z : ℚ)) hi.symm
  refine ⟨hi, ?_, ?_⟩
  · calc (timeValueMs g u : ℚ) = ((⌊dyadic (pyProd g u)⌋ : Int) : ℚ) := hiq.symm
    _ ≤ dyadic (pyProd g u) := Int.floor_le _
  · calc dyadic (pyProd g u)
        < ((⌊dyadic (pyProd g u)⌋ : Int) : ℚ) + 1 := Int.lt_floor_add_one _
    _ = (timeValueMs g u : ℚ) + 1 := by rw [hiq]
